import Mathlib

/-!
# Verification of the github_exporter collector core

Shallow embedding of the collector pipeline of `github_exporter`
(runner collector, legacy v4 billing collector, enhanced v5 billing
collector) together with proofs about the properties claimed by the
design specification.

Modelling conventions:
* Go `float64` amounts are modelled as exact rationals (`ℚ`); all the
  arithmetic that the claims exercise (addition, division by the
  constant `1024³`, truncation to `int`) is exact on the concrete
  values involved.
* Go `map[string]bool` sets are modelled as `List String` with
  membership, Go `map[string]int` as association lists updated in
  place.
* The upstream API client (a black box per the specification) is
  modelled as an oracle function passed to each fetching routine;
  an `Except` value stands for the `(result, err)` pair.
* `strings.ToLower` is modelled by ASCII lowercasing, which coincides
  with Go on every string the code and the claims exercise.
-/

/-- ASCII lowercasing of a single character, the fragment of Go's
`strings.ToLower` exercised by the billing code. -/
def lowerChar (c : Char) : Char :=
  if 'A' ≤ c ∧ c ≤ 'Z' then Char.ofNat (c.toNat + 32) else c

/-- Model of Go's `strings.ToLower` (ASCII fragment). -/
def toLowerS (s : String) : String :=
  ⟨s.data.map lowerChar⟩

/-- Whether the character list `sub` occurs contiguously inside `s`;
model of Go's `strings.Contains` on the underlying characters. -/
def listContains : List Char → List Char → Bool
  | s, sub =>
    sub.isPrefixOf s ||
      (match s with
       | [] => false
       | _ :: t => listContains t sub)

/-- Go `strings.Contains(s, sub)`. -/
def strContains (s sub : String) : Bool :=
  listContains s.data sub.data

/-- Truncation of a rational toward zero, the behaviour of Go's
`int(f)` conversion on a `float64`. -/
def truncRat (q : ℚ) : ℤ :=
  q.num.tdiv q.den

/-- Association-list update modelling Go's `m[k] += v` on a
`map[string]int`. -/
def updB : List (String × ℤ) → String → ℤ → List (String × ℤ)
  | [], k, v => [(k, v)]
  | (k', v') :: rest, k, v =>
    if k' = k then (k', v' + v) :: rest else (k', v') :: updB rest k v

/-- Association-list lookup with Go's zero-value default. -/
def lookupB : List (String × ℤ) → String → ℤ
  | [], _ => 0
  | (k, v) :: rest, key => if k = key then v else lookupB rest key

/-- Sum of all values stored in a breakdown map. -/
def breakdownSum (m : List (String × ℤ)) : ℤ :=
  (m.map Prod.snd).sum

/-- Usage item of the Enhanced Billing Platform API (`UsageItem` in the
source; the `type`/`name` fields are the enhanced collector's extra
metadata fields, zero-valued until a fetch sets them). -/
structure UsageItem where
  date : String
  product : String
  sku : String
  quantity : ℚ
  unitType : String
  pricePerUnit : ℚ
  grossAmount : ℚ
  discountAmount : ℚ
  netAmount : ℚ
  organizationName : String
  repositoryName : String
  type : String := ""
  name : String := ""
deriving DecidableEq, Repr

/-- Response of the billing usage endpoint (`UsageResponse`). -/
structure UsageResponse where
  usageItems : List UsageItem
deriving DecidableEq, Repr

/-- Legacy action-billing bucket (`actionBilling`). -/
structure actionBilling where
  type : String
  name : String
  totalMinutesUsed : ℚ
  totalPaidMinutesUsed : ℚ
  includedMinutes : ℚ
  minutesUsedBreakdown : List (String × ℤ)
deriving DecidableEq, Repr

/-- Legacy package-billing bucket (`packageBilling`). -/
structure packageBilling where
  type : String
  name : String
  totalGigabytesBandwidthUsed : ℚ
  totalPaidGigabytesBandwidthUsed : ℚ
  includedGigabytesBandwidth : ℚ
deriving DecidableEq, Repr

/-- Legacy storage-billing bucket (`storageBilling`). -/
structure storageBilling where
  type : String
  name : String
  daysLeftInBillingCycle : ℤ
  estimatedPaidStorageForMonth : ℚ
  estimatedStorageForMonth : ℚ
deriving DecidableEq, Repr

/-- `extractOSFromSKU` from `billing.go`: derives an operating system
from a SKU by case-insensitive substring matching. -/
def extractOSFromSKU (sku : String) : String :=
  let skuLower := toLowerS sku
  if strContains skuLower "linux" then "UBUNTU"
  else if strContains skuLower "windows" then "WINDOWS"
  else if strContains skuLower "macos" || strContains skuLower "mac" then "MACOS"
  else ""

/-- One iteration of the loop body of `parseUsageResponse`: classifies a
single usage item into the three legacy accumulator buckets. -/
def parseStep (acc : actionBilling × packageBilling × storageBilling) (item : UsageItem) :
    actionBilling × packageBilling × storageBilling :=
  if toLowerS item.product = "actions" then
    if toLowerS item.unitType = "minutes" then
      ({ acc.1 with
          totalMinutesUsed := acc.1.totalMinutesUsed + item.quantity,
          totalPaidMinutesUsed := acc.1.totalPaidMinutesUsed + item.netAmount,
          includedMinutes := acc.1.includedMinutes + item.discountAmount,
          minutesUsedBreakdown :=
            if extractOSFromSKU item.sku = "" then acc.1.minutesUsedBreakdown
            else updB acc.1.minutesUsedBreakdown (extractOSFromSKU item.sku) (truncRat item.quantity) },
        acc.2.1, acc.2.2)
    else acc
  else if toLowerS item.product = "packages" then
    if toLowerS item.unitType = "bytes" ∨ toLowerS item.unitType = "gigabytes" then
      (acc.1,
       { acc.2.1 with
          totalGigabytesBandwidthUsed := acc.2.1.totalGigabytesBandwidthUsed +
            (if toLowerS item.unitType = "bytes" then item.quantity / (1024 * 1024 * 1024) else item.quantity),
          totalPaidGigabytesBandwidthUsed := acc.2.1.totalPaidGigabytesBandwidthUsed + item.netAmount,
          includedGigabytesBandwidth := acc.2.1.includedGigabytesBandwidth + item.discountAmount },
       acc.2.2)
    else acc
  else if toLowerS item.product = "git_lfs" then
    if toLowerS item.unitType = "bytes" ∨ toLowerS item.unitType = "gigabytes" ∨
        toLowerS item.unitType = "gigabytehours" then
      (acc.1, acc.2.1,
       { acc.2.2 with
          estimatedStorageForMonth := acc.2.2.estimatedStorageForMonth +
            (if toLowerS item.unitType = "bytes" then item.quantity / (1024 * 1024 * 1024) else item.quantity),
          estimatedPaidStorageForMonth := acc.2.2.estimatedPaidStorageForMonth + item.netAmount })
    else acc
  else acc

/-- `parseUsageResponse` from `billing.go`: converts an Enhanced
Billing Platform response into the three legacy billing buckets. -/
def parseUsageResponse (response : Option UsageResponse) (billingType name : String) :
    actionBilling × packageBilling × storageBilling :=
  let actionBill : actionBilling := ⟨billingType, name, 0, 0, 0, []⟩
  let packageBill : packageBilling := ⟨billingType, name, 0, 0, 0⟩
  let storageBill : storageBilling := ⟨billingType, name, 0, 0, 0⟩
  match response with
  | none => (actionBill, packageBill, storageBill)
  | some r => r.usageItems.foldl parseStep (actionBill, packageBill, storageBill)

/-- The classification test of the legacy actions bucket: product
`actions` and unit type `minutes`, both compared after lowercasing. -/
def isActionMinutes (it : UsageItem) : Bool :=
  decide (toLowerS it.product = "actions" ∧ toLowerS it.unitType = "minutes")

/-- The classification test of the legacy packages bucket. -/
def isPackageBW (it : UsageItem) : Bool :=
  decide (toLowerS it.product = "packages" ∧
    (toLowerS it.unitType = "bytes" ∨ toLowerS it.unitType = "gigabytes"))

/-- The gigabyte quantity the packages bucket accumulates for one item:
byte quantities are divided by `1024³`. -/
def packageQty (it : UsageItem) : ℚ :=
  if toLowerS it.unitType = "bytes" then it.quantity / (1024 * 1024 * 1024) else it.quantity

/-- Whether the SKU of an item classifies to an operating system. -/
def isClassified (it : UsageItem) : Bool :=
  decide (extractOSFromSKU it.sku ≠ "")

/-- The concrete single-item batch used by the specification's
normalizer test: an actions/minutes item with a linux SKU. -/
def exampleActionItem : UsageItem :=
  { date := "d", product := "actions", sku := "gha-linux-64",
    quantity := 10, unitType := "minutes", pricePerUnit := 0, grossAmount := 10,
    discountAmount := 2, netAmount := 8, organizationName := "", repositoryName := "" }

/-- The counterexample item for claim C5: its unit type is the string
`MINUTES`, which differs from the literal `minutes`. -/
def cexUnitTypeItem : UsageItem :=
  { date := "d", product := "actions", sku := "custom-sku", quantity := 10, unitType := "MINUTES",
    pricePerUnit := 0, grossAmount := 0, discountAmount := 0, netAmount := 0,
    organizationName := "", repositoryName := "" }

/-- The packages item of the byte-conversion test: one gigabyte
expressed in bytes. -/
def bytesPackageItem : UsageItem :=
  { date := "d", product := "packages", sku := "pkg-bandwidth", quantity := 1073741824,
    unitType := "bytes", pricePerUnit := 0, grossAmount := 0, discountAmount := 0, netAmount := 0,
    organizationName := "", repositoryName := "" }

/-- An actions item with a fractional quantity and a SKU that
classifies to an operating system. -/
def fracActionItem : UsageItem :=
  { date := "d", product := "actions", sku := "linux-8-core", quantity := 21/2,
    unitType := "minutes", pricePerUnit := 0, grossAmount := 0, discountAmount := 0, netAmount := 0,
    organizationName := "", repositoryName := "" }

/-- Dedup key of the enhanced `BillingCollector.Collect`: the dash-joined
format string `type-name-product-sku-date`. -/
def billingKey (it : UsageItem) : String :=
  it.type ++ "-" ++ it.name ++ "-" ++ it.product ++ "-" ++ it.sku ++ "-" ++ it.date

/-- The composite field tuple the dedup key is built from. -/
def billingTupleKey (it : UsageItem) : String × String × String × String × String :=
  (it.type, it.name, it.product, it.sku, it.date)

/-- One emitted metric sample: family name, label values, gauge value. -/
structure Sample where
  desc : String
  labels : List String
  value : ℚ
deriving DecidableEq, Repr

/-- The five samples the enhanced `BillingCollector.Collect` emits for
one surviving usage item (one per metric family, shared labels). -/
def billingSampleSet (it : UsageItem) : List Sample :=
  let labels := [it.type, it.name, it.product, it.sku, it.unitType, it.date,
    it.organizationName, it.repositoryName]
  [⟨"github_billing_usage", labels, it.quantity⟩,
   ⟨"github_billing_usage_gross_amount", labels, it.grossAmount⟩,
   ⟨"github_billing_usage_discount_amount", labels, it.discountAmount⟩,
   ⟨"github_billing_usage_net_amount", labels, it.netAmount⟩,
   ⟨"github_billing_usage_price_per_unit", labels, it.pricePerUnit⟩]

/-- The dedup loop of the enhanced `BillingCollector.Collect`: `seen`
models the `collected` map of string keys; the result is the sub-list
of items whose sample set is emitted, in order. -/
def BillingCollector.dedup : List UsageItem → List String → List UsageItem
  | [], _ => []
  | it :: rest, seen =>
    if billingKey it ∈ seen then BillingCollector.dedup rest seen
    else it :: BillingCollector.dedup rest (billingKey it :: seen)

/-- Enhanced `BillingCollector.Collect` over an already fetched item
list: each surviving item contributes its five-sample set. -/
def BillingCollector.Collect (usageItems : List UsageItem) : List Sample :=
  ((BillingCollector.dedup usageItems []).map billingSampleSet).flatten

/-- First aliasing item for claim C1: its `type` field contains the
dash used as separator by the dedup key. -/
def cexAliasItem1 : UsageItem :=
  { date := "", product := "", sku := "", quantity := 1, unitType := "u",
    pricePerUnit := 0, grossAmount := 0, discountAmount := 0, netAmount := 0,
    organizationName := "", repositoryName := "", type := "a-b", name := "c" }

/-- Second aliasing item for claim C1: a different composite tuple with
the same dash-joined key string. -/
def cexAliasItem2 : UsageItem :=
  { date := "", product := "", sku := "", quantity := 2, unitType := "u",
    pricePerUnit := 0, grossAmount := 0, discountAmount := 0, netAmount := 0,
    organizationName := "", repositoryName := "", type := "a", name := "b-c" }

/-- A usage item for the claim C1 witness. -/
def dateItemA : UsageItem :=
  { date := "2024-01-01", product := "p", sku := "s", quantity := 1,
    unitType := "u", pricePerUnit := 0, grossAmount := 0, discountAmount := 0, netAmount := 0,
    organizationName := "", repositoryName := "", type := "org", name := "octo" }

/-- The same usage item with only the date changed. -/
def dateItemB : UsageItem :=
  { dateItemA with date := "2024-01-02" }

/-- Runner descriptor (`github.Runner`): every field is a pointer in
the upstream client, hence `Option`; the nil-safe getters used by the
collector return the zero value, while `Busy` is dereferenced
directly. -/
structure Runner where
  id : Option ℤ
  name : Option String
  os : Option String
  status : Option String
  busy : Option Bool
deriving DecidableEq, Repr

/-- One response of the upstream `ListRunners` call as consumed by the
pagination loop: either a page of records plus the next-page signal
(`hasNext` models Go's `resp.NextPage != 0`), or an error. -/
inductive PageResult where
  | ok (records : List Runner) (hasNext : Bool)
  | fail (e : String)
deriving DecidableEq, Repr

/-- The loop of `RunnerCollector.pagedRepoRunners` over the successive
responses the server yields: accumulate each page's records, stop when
a response carries no next-page signal, and on any error return that
error with no records (Go's `return nil, err`). -/
def RunnerCollector.pagedRepoRunners : List PageResult → List Runner → Except String (List Runner)
  | [], acc => Except.ok acc
  | PageResult.fail e :: _, _ => Except.error e
  | PageResult.ok recs hasNext :: rest, acc =>
    if hasNext then RunnerCollector.pagedRepoRunners rest (acc ++ recs)
    else Except.ok (acc ++ recs)

/-- A well-formed trace of successful pages: every page except the last
carries the next-page signal. -/
def mkTrace : List (List Runner) → List PageResult
  | [] => []
  | [p] => [PageResult.ok p false]
  | p :: rest => PageResult.ok p true :: mkTrace rest

/-- Modelled from the spec: the glob matcher (`glob.Glob` of the
`ryanuber/go-glob` dependency, whose sources are not part of this
repository) — anchored full-string matching, case-sensitive, where the
star wildcard matches any possibly-empty substring and the
question-mark wildcard matches exactly one character. -/
def globMatch : List Char → List Char → Bool
  | [], s => s.isEmpty
  | p :: ps, s =>
    if p = '*' then
      globMatch ps s ||
        (match s with
         | [] => false
         | _ :: s2 => globMatch (p :: ps) s2)
    else
      match s with
      | [] => false
      | c :: s2 => (p == '?' || p == c) && globMatch ps s2
termination_by p s => (p.length, s.length)

/-- Modelled from the spec: `glob.Glob(pattern, subj)` on strings. -/
def globGlob (pattern subj : String) : Bool :=
  globMatch pattern.data subj.data

/-- Repository descriptor (the fields of `github.Repository` the
resolver uses). -/
structure Repo where
  fullName : String
  owner : String
  name : String
deriving DecidableEq, Repr

/-- The retention step of `RunnerCollector.repoRunners`: of the
repositories listed for an owner, keep exactly those whose
fully-qualified name matches the configured pattern. -/
def retainedRepos (pattern : String) (repos : List Repo) : List Repo :=
  repos.filter (fun r => globGlob pattern r.fullName)

/-- A concrete repository matching the wildcard-free pattern. -/
def repoAB : Repo := ⟨"a/b", "a", "b"⟩

/-- Modelled from the spec: `boolToFloat64` (helper defined outside the
given sources; the busy metric's help text reads `1 if the runner is
busy, 0 otherwise`). -/
def boolToFloat64 (b : Bool) : ℚ :=
  if b then 1 else 0

/-- Go `strings.Split(s, "/")` on the underlying characters. -/
def splitSlash : List Char → List (List Char)
  | [] => [[]]
  | c :: rest =>
    match splitSlash rest with
    | [] => [[]]
    | g :: gs => if c = '/' then [] :: g :: gs else (c :: g) :: gs

/-- The label list of one runner sample in `RunnerCollector.Collect`:
the owner placeholder, the decimal id, name, OS and status through the
nil-safe getters. -/
def runnerLabels (ownerLabel : String) (r : Runner) : List String :=
  [ownerLabel, toString (r.id.getD 0), r.name.getD "", r.os.getD "", r.status.getD ""]

/-- The online gauge of one runner: 1 exactly when its status is the
string `online`. -/
def onlineVal (r : Runner) : ℚ :=
  if r.status.getD "" = "online" then 1 else 0

/-- One iteration of an emission loop of `RunnerCollector.Collect`:
the online sample, then the busy sample obtained by dereferencing the
`Busy` pointer — `none` models the nil-pointer panic. -/
def runnerSamplePair (ownerLabel onlineDesc busyDesc : String) (r : Runner) :
    Option (List Sample) :=
  match r.busy with
  | none => none
  | some b =>
    some [⟨onlineDesc, runnerLabels ownerLabel r, onlineVal r⟩,
          ⟨busyDesc, runnerLabels ownerLabel r, boolToFloat64 b⟩]

/-- One section of the emission loop of `RunnerCollector.Collect` over
its fetched records; `none` when any record panics. -/
def collectSection (ownerLabel onlineDesc busyDesc : String) : List Runner → Option (List Sample)
  | [] => some []
  | r :: rest =>
    match runnerSamplePair ownerLabel onlineDesc busyDesc r with
    | none => none
    | some pair =>
      match collectSection ownerLabel onlineDesc busyDesc rest with
      | none => none
      | some tail => some (pair ++ tail)

/-- `RunnerCollector.Collect`: the three sections (repository,
enterprise, organization runners) over their already fetched record
lists, in source order; `none` models a panic. -/
def RunnerCollector.Collect (repoRecords entRecords orgRecords : List Runner) :
    Option (List Sample) :=
  match collectSection "TODO: repo" "github_runner_repo_online" "github_runner_repo_busy"
      repoRecords with
  | none => none
  | some a =>
    match collectSection "TODO: enterprise" "github_runner_enterprise_online"
        "github_runner_enterprise_busy" entRecords with
    | none => none
    | some b =>
      match collectSection "TODO: org" "github_runner_org_online" "github_runner_org_busy"
          orgRecords with
      | none => none
      | some c => some (a ++ b ++ c)

/-- `RunnerCollector.repoRunners`: iterate the configured repository
patterns, split each on `/` (a pattern not yielding exactly two parts
records a failure and is skipped), list the owner's repositories
(`reposByOwner` stands for the upstream listing `reposByOwnerAndName`,
defined outside the given sources), keep the glob matches, fetch each
matching repository's runners (`fetchRunners` abstracts the paginated
fetch) and concatenate; a fetch failure records a failure and skips
that one repository. The second component is the list of failure-label
increments. -/
def RunnerCollector.repoRunners
    (reposByOwner : String → String → Except String (List Repo))
    (fetchRunners : String → String → Except String (List Runner))
    (repoPatterns : List String) : List Runner × List String :=
  repoPatterns.foldl (fun acc pattern =>
    match splitSlash pattern.data with
    | [o, n] =>
      match reposByOwner (String.mk o) (String.mk n) with
      | Except.error _ => (acc.1, acc.2 ++ ["runner"])
      | Except.ok repos =>
        repos.foldl (fun acc2 repo =>
          if globGlob pattern repo.fullName then
            match fetchRunners repo.owner repo.name with
            | Except.error _ => (acc2.1, acc2.2 ++ ["runner"])
            | Except.ok records => (acc2.1 ++ records, acc2.2)
          else acc2) acc
    | _ => (acc.1, acc.2 ++ ["runner"])) ([], [])

/-- A runner record whose `Busy` pointer is nil. -/
def nilBusyRunner : Runner := ⟨some 7, some "r7", some "linux", some "online", none⟩

/-- The runner listed by the duplicate-emission counterexample. -/
def dupRunner : Runner := ⟨some 7, some "runner7", some "linux", some "online", some false⟩

/-- Repository-listing oracle: owner `a` has the single repository
`a/b`. -/
def reposOracle0 : String → String → Except String (List Repo) :=
  fun o _ => if o = "a" then Except.ok [repoAB] else Except.error "unknown owner"

/-- Runner-listing oracle: repository `a/b` has one runner. -/
def fetchOracle0 : String → String → Except String (List Runner) :=
  fun o n => if o = "a" ∧ n = "b" then Except.ok [dupRunner] else Except.error "unknown repo"

/-- The records the resolver returns for the two overlapping patterns
`a/b` and `a/b*`: the same runner, listed twice. -/
def dupRecords : List Runner :=
  (RunnerCollector.repoRunners reposOracle0 fetchOracle0 ["a/b", "a/b*"]).1

/-- Whether an `Except` is the error case (Go's `err != nil`). -/
def isErr {ε α : Type} (e : Except ε α) : Bool :=
  match e with
  | Except.error _ => true
  | Except.ok _ => false

/-- `fetchBillingUsageForEntity` of the enhanced collector: on a
request or fetch error it increments the `billing` failure label and
returns no items; on success it stamps each usage item with the
entity's type and name. The second component lists the failure-label
increments. -/
def fetchBillingUsageForEntity (api : String → String → Except String (List UsageItem))
    (entityType name : String) : List UsageItem × List String :=
  match api entityType name with
  | Except.error _ => ([], ["billing"])
  | Except.ok items => (items.map (fun it => { it with type := entityType, name := name }), [])

/-- The entity sequence of a billing fetch: enterprises (labelled
`enterprise`) first, then organizations (labelled `org`). -/
def entityPairs (enterprises orgs : List String) : List (String × String) :=
  enterprises.map (fun n => ("enterprise", n)) ++ orgs.map (fun n => ("org", n))

/-- `getBillingUsage` of the enhanced collector: fetch every
enterprise, then every organization, concatenating items and failure
increments. -/
def getBillingUsage (api : String → String → Except String (List UsageItem))
    (enterprises orgs : List String) : List UsageItem × List String :=
  (entityPairs enterprises orgs).foldl (fun acc p =>
    (acc.1 ++ (fetchBillingUsageForEntity api p.1 p.2).1,
     acc.2 ++ (fetchBillingUsageForEntity api p.1 p.2).2)) ([], [])

/-- `getActionBilling` of the legacy collector: per entity, fetch the
usage endpoint; an error increments the failures counter under the
literal label `action` and skips that entity; a success appends the
actions bucket of the parsed response. -/
def getActionBilling (api : String → String → Except String UsageResponse)
    (enterprises orgs : List String) : List actionBilling × List String :=
  (entityPairs enterprises orgs).foldl (fun acc p =>
    match api p.1 p.2 with
    | Except.error _ => (acc.1, acc.2 ++ ["action"])
    | Except.ok resp => (acc.1 ++ [(parseUsageResponse (some resp) p.1 p.2).1], acc.2)) ([], [])

/-- `getPackageBilling` of the legacy collector; note the failure label
is the literal `action` here too. -/
def getPackageBilling (api : String → String → Except String UsageResponse)
    (enterprises orgs : List String) : List packageBilling × List String :=
  (entityPairs enterprises orgs).foldl (fun acc p =>
    match api p.1 p.2 with
    | Except.error _ => (acc.1, acc.2 ++ ["action"])
    | Except.ok resp => (acc.1 ++ [(parseUsageResponse (some resp) p.1 p.2).2.1], acc.2)) ([], [])

/-- `getStorageBilling` of the legacy collector; failure label again
the literal `action`. -/
def getStorageBilling (api : String → String → Except String UsageResponse)
    (enterprises orgs : List String) : List storageBilling × List String :=
  (entityPairs enterprises orgs).foldl (fun acc p =>
    match api p.1 p.2 with
    | Except.error _ => (acc.1, acc.2 ++ ["action"])
    | Except.ok resp => (acc.1 ++ [(parseUsageResponse (some resp) p.1 p.2).2.2], acc.2)) ([], [])

/-- Modelled from the spec: `alreadyCollected` (defined outside the
given sources) is the linear-scan duplicate check on the list of
already collected names. -/
def alreadyCollected (collected : List String) (name : String) : Bool :=
  collected.contains name

/-- The emission loop of the action block of the legacy Collect:
dedup by record name, three scalar samples plus one breakdown sample
per operating-system entry. -/
def emitActionBilling : List actionBilling → List String → List Sample
  | [], _ => []
  | record :: rest, collected =>
    if alreadyCollected collected record.name then emitActionBilling rest collected
    else
      ([⟨"github_action_billing_minutes_used", [record.type, record.name],
          record.totalMinutesUsed⟩,
        ⟨"github_action_billing_paid_minutes", [record.type, record.name],
          record.totalPaidMinutesUsed⟩,
        ⟨"github_action_billing_included_minutes", [record.type, record.name],
          record.includedMinutes⟩]
        ++ record.minutesUsedBreakdown.map (fun kv =>
            ⟨"github_action_billing_minutes_used_breakdown",
              [record.type, record.name, kv.1], (kv.2 : ℚ)⟩))
        ++ emitActionBilling rest (collected ++ [record.name])

/-- The emission loop of the package block of the legacy Collect. -/
def emitPackageBilling : List packageBilling → List String → List Sample
  | [], _ => []
  | record :: rest, collected =>
    if alreadyCollected collected record.name then emitPackageBilling rest collected
    else
      [⟨"github_package_billing_gigabytes_bandwidth_used", [record.type, record.name],
          record.totalGigabytesBandwidthUsed⟩,
       ⟨"github_package_billing_paid_gigabytes_bandwidth_used", [record.type, record.name],
          record.totalPaidGigabytesBandwidthUsed⟩,
       ⟨"github_package_billing_included_gigabytes_bandwidth", [record.type, record.name],
          record.includedGigabytesBandwidth⟩]
        ++ emitPackageBilling rest (collected ++ [record.name])

/-- The emission loop of the storage block of the legacy Collect. -/
def emitStorageBilling : List storageBilling → List String → List Sample
  | [], _ => []
  | record :: rest, collected =>
    if alreadyCollected collected record.name then emitStorageBilling rest collected
    else
      [⟨"github_storage_billing_days_left_in_cycle", [record.type, record.name],
          (record.daysLeftInBillingCycle : ℚ)⟩,
       ⟨"github_storage_billing_estimated_paid_storage_for_month", [record.type, record.name],
          record.estimatedPaidStorageForMonth⟩,
       ⟨"github_storage_billing_estimated_storage_for_month", [record.type, record.name],
          record.estimatedStorageForMonth⟩]
        ++ emitStorageBilling rest (collected ++ [record.name])

/-- Legacy `BillingCollector.Collect`: three blocks — action, package,
storage — each fetching all entities, observing exactly one duration
under the label the source passes to `WithLabelValues` (the literal
`action` in all three blocks), and emitting its samples under the
name-based duplicate check. Returns (samples, duration-observation
labels in order, failure-label increments). -/
def BillingCollector.CollectLegacy (api : String → String → Except String UsageResponse)
    (enterprises orgs : List String) : List Sample × List String × List String :=
  let ab := getActionBilling api enterprises orgs
  let pb := getPackageBilling api enterprises orgs
  let sb := getStorageBilling api enterprises orgs
  (emitActionBilling ab.1 [] ++ emitPackageBilling pb.1 [] ++ emitStorageBilling sb.1 [],
   ["action", "action", "action"],
   ab.2 ++ pb.2 ++ sb.2)

/-- An oracle failing for every entity. -/
def failApi : String → String → Except String UsageResponse :=
  fun _ _ => Except.error "boom"

/-- An oracle returning the empty usage response for every entity. -/
def api0 : String → String → Except String UsageResponse :=
  fun _ _ => Except.ok ⟨[]⟩

lemma lookupB_updB_self (m : List (String × ℤ)) (k : String) (v : ℤ) :
    lookupB (updB m k v) k = lookupB m k + v := by
  induction m with
  | nil => simp [updB, lookupB]
  | cons kv rest ih =>
    obtain ⟨k', v'⟩ := kv
    by_cases h : k' = k
    · simp [updB, lookupB, h]
    · simp [updB, lookupB, h, ih]

lemma lookupB_updB_ne (m : List (String × ℤ)) (k k' : String) (v : ℤ) (h : k' ≠ k) :
    lookupB (updB m k v) k' = lookupB m k' := by
  induction m with
  | nil => simp [updB, lookupB, Ne.symm h]
  | cons kv rest ih =>
    obtain ⟨a, b⟩ := kv
    by_cases ha : a = k
    · subst ha
      simp [updB, lookupB, Ne.symm h]
    · simp [updB, lookupB, ha, ih]

lemma breakdownSum_updB (m : List (String × ℤ)) (k : String) (v : ℤ) :
    breakdownSum (updB m k v) = breakdownSum m + v := by
  induction m with
  | nil => simp [updB, breakdownSum]
  | cons kv rest ih =>
    obtain ⟨a, b⟩ := kv
    by_cases ha : a = k <;> simp [updB, breakdownSum, ha] <;>
      simp [breakdownSum] at ih <;> omega

lemma updB_keys (m : List (String × ℤ)) (k : String) (v : ℤ) (P : String → Prop)
    (hm : ∀ kv ∈ m, P kv.1) (hk : P k) : ∀ kv ∈ updB m k v, P kv.1 := by
  induction m with
  | nil => simpa [updB]
  | cons kv' rest ih =>
    obtain ⟨a, b⟩ := kv'
    intro kv hkv
    by_cases ha : a = k
    · subst ha
      simp [updB] at hkv
      rcases hkv with h | h
      · subst h
        exact hm (a, b) (by simp)
      · exact hm kv (by simp [h])
    · simp [updB, ha] at hkv
      rcases hkv with h | h
      · subst h
        exact hm (a, b) (by simp)
      · exact ih (fun kv h2 => hm kv (by simp [h2])) kv h

lemma parseStep_fst (acc : actionBilling × packageBilling × storageBilling) (it : UsageItem) :
    (parseStep acc it).1 =
      if toLowerS it.product = "actions" ∧ toLowerS it.unitType = "minutes" then
        { acc.1 with
            totalMinutesUsed := acc.1.totalMinutesUsed + it.quantity,
            totalPaidMinutesUsed := acc.1.totalPaidMinutesUsed + it.netAmount,
            includedMinutes := acc.1.includedMinutes + it.discountAmount,
            minutesUsedBreakdown :=
              if extractOSFromSKU it.sku = "" then acc.1.minutesUsedBreakdown
              else updB acc.1.minutesUsedBreakdown (extractOSFromSKU it.sku) (truncRat it.quantity) }
      else acc.1 := by
  unfold parseStep
  split_ifs <;> simp_all

lemma parseStep_pkg (acc : actionBilling × packageBilling × storageBilling) (it : UsageItem) :
    (parseStep acc it).2.1 =
      if toLowerS it.product = "packages" ∧
          (toLowerS it.unitType = "bytes" ∨ toLowerS it.unitType = "gigabytes") then
        { acc.2.1 with
            totalGigabytesBandwidthUsed := acc.2.1.totalGigabytesBandwidthUsed + packageQty it,
            totalPaidGigabytesBandwidthUsed := acc.2.1.totalPaidGigabytesBandwidthUsed + it.netAmount,
            includedGigabytesBandwidth := acc.2.1.includedGigabytesBandwidth + it.discountAmount }
      else acc.2.1 := by
  unfold parseStep packageQty
  split_ifs <;> simp_all

lemma foldl_action_total (items : List UsageItem)
    (acc : actionBilling × packageBilling × storageBilling) :
    (items.foldl parseStep acc).1.totalMinutesUsed
      = acc.1.totalMinutesUsed + ((items.filter isActionMinutes).map (fun it => it.quantity)).sum := by
  induction items generalizing acc with
  | nil => simp
  | cons it rest ih =>
    rw [List.foldl_cons, ih, List.filter_cons]
    by_cases h : isActionMinutes it = true
    · have hp : toLowerS it.product = "actions" ∧ toLowerS it.unitType = "minutes" := by
        simpa [isActionMinutes] using h
      simp [h, parseStep_fst, hp]
      ring
    · have hp : ¬ (toLowerS it.product = "actions" ∧ toLowerS it.unitType = "minutes") := by
        simpa [isActionMinutes] using h
      simp [h, parseStep_fst, hp]

lemma foldl_action_paid (items : List UsageItem)
    (acc : actionBilling × packageBilling × storageBilling) :
    (items.foldl parseStep acc).1.totalPaidMinutesUsed
      = acc.1.totalPaidMinutesUsed + ((items.filter isActionMinutes).map (fun it => it.netAmount)).sum := by
  induction items generalizing acc with
  | nil => simp
  | cons it rest ih =>
    rw [List.foldl_cons, ih, List.filter_cons]
    by_cases h : isActionMinutes it = true
    · have hp : toLowerS it.product = "actions" ∧ toLowerS it.unitType = "minutes" := by
        simpa [isActionMinutes] using h
      simp [h, parseStep_fst, hp]
      ring
    · have hp : ¬ (toLowerS it.product = "actions" ∧ toLowerS it.unitType = "minutes") := by
        simpa [isActionMinutes] using h
      simp [h, parseStep_fst, hp]

lemma foldl_breakdown_lookup (items : List UsageItem)
    (acc : actionBilling × packageBilling × storageBilling) (os : String) (hos : os ≠ "") :
    lookupB (items.foldl parseStep acc).1.minutesUsedBreakdown os
      = lookupB acc.1.minutesUsedBreakdown os
        + ((items.filter (fun it => isActionMinutes it && (extractOSFromSKU it.sku == os))).map
            (fun it => truncRat it.quantity)).sum := by
  induction items generalizing acc with
  | nil => simp
  | cons it rest ih =>
    rw [List.foldl_cons, ih, List.filter_cons]
    by_cases h : isActionMinutes it = true
    · have hp : toLowerS it.product = "actions" ∧ toLowerS it.unitType = "minutes" := by
        simpa [isActionMinutes] using h
      by_cases hos2 : extractOSFromSKU it.sku = os
      · have hpred : (isActionMinutes it && (extractOSFromSKU it.sku == os)) = true := by
          simp [h, hos2]
        rw [if_pos hpred]
        simp [parseStep_fst, hp, hos2, hos, lookupB_updB_self]
        ring
      · have hpred : (isActionMinutes it && (extractOSFromSKU it.sku == os)) = false := by
          simp [hos2]
        rw [if_neg (by simp [hpred])]
        by_cases hbe : extractOSFromSKU it.sku = ""
        · simp [parseStep_fst, hp, hbe]
        · simp [parseStep_fst, hp, hbe, lookupB_updB_ne _ _ _ _ (Ne.symm hos2)]
    · have hp : ¬ (toLowerS it.product = "actions" ∧ toLowerS it.unitType = "minutes") := by
        simpa [isActionMinutes] using h
      have hpred : (isActionMinutes it && (extractOSFromSKU it.sku == os)) = false := by
        simp [h]
      rw [if_neg (by simp [hpred])]
      simp [parseStep_fst, hp]

lemma foldl_breakdown_sum (items : List UsageItem)
    (acc : actionBilling × packageBilling × storageBilling) :
    breakdownSum (items.foldl parseStep acc).1.minutesUsedBreakdown
      = breakdownSum acc.1.minutesUsedBreakdown
        + ((items.filter (fun it => isActionMinutes it && isClassified it)).map
            (fun it => truncRat it.quantity)).sum := by
  induction items generalizing acc with
  | nil => simp
  | cons it rest ih =>
    rw [List.foldl_cons, ih, List.filter_cons]
    by_cases h : isActionMinutes it = true
    · have hp : toLowerS it.product = "actions" ∧ toLowerS it.unitType = "minutes" := by
        simpa [isActionMinutes] using h
      by_cases hbe : extractOSFromSKU it.sku = ""
      · have hpred : (isActionMinutes it && isClassified it) = false := by
          simp [isClassified, hbe]
        rw [if_neg (by simp [hpred])]
        simp [parseStep_fst, hp, hbe]
      · have hpred : (isActionMinutes it && isClassified it) = true := by
          simp [h, isClassified, hbe]
        rw [if_pos hpred]
        simp [parseStep_fst, hp, hbe, breakdownSum_updB]
        ring
    · have hp : ¬ (toLowerS it.product = "actions" ∧ toLowerS it.unitType = "minutes") := by
        simpa [isActionMinutes] using h
      have hpred : (isActionMinutes it && isClassified it) = false := by
        simp [h]
      rw [if_neg (by simp [hpred])]
      simp [parseStep_fst, hp]

lemma foldl_breakdown_keys (items : List UsageItem)
    (acc : actionBilling × packageBilling × storageBilling)
    (hacc : ∀ kv ∈ acc.1.minutesUsedBreakdown, kv.1 ≠ "") :
    ∀ kv ∈ (items.foldl parseStep acc).1.minutesUsedBreakdown, kv.1 ≠ "" := by
  induction items generalizing acc with
  | nil => simpa using hacc
  | cons it rest ih =>
    rw [List.foldl_cons]
    refine ih _ ?_
    rw [parseStep_fst]
    split_ifs with h1 h2
    · simpa using hacc
    · exact updB_keys _ _ _ (fun s => s ≠ "") hacc h2
    · simpa using hacc

lemma foldl_package_total (items : List UsageItem)
    (acc : actionBilling × packageBilling × storageBilling) :
    (items.foldl parseStep acc).2.1.totalGigabytesBandwidthUsed
      = acc.2.1.totalGigabytesBandwidthUsed + ((items.filter isPackageBW).map packageQty).sum := by
  induction items generalizing acc with
  | nil => simp
  | cons it rest ih =>
    rw [List.foldl_cons, ih, List.filter_cons]
    by_cases h : isPackageBW it = true
    · have hp : toLowerS it.product = "packages" ∧
          (toLowerS it.unitType = "bytes" ∨ toLowerS it.unitType = "gigabytes") := by
        simpa [isPackageBW] using h
      simp [h, parseStep_pkg, hp]
      ring
    · have hp : ¬ (toLowerS it.product = "packages" ∧
          (toLowerS it.unitType = "bytes" ∨ toLowerS it.unitType = "gigabytes")) := by
        simpa [isPackageBW] using h
      simp [h, parseStep_pkg, hp]

lemma foldl_action_included (items : List UsageItem)
    (acc : actionBilling × packageBilling × storageBilling) :
    (items.foldl parseStep acc).1.includedMinutes
      = acc.1.includedMinutes + ((items.filter isActionMinutes).map (fun it => it.discountAmount)).sum := by
  induction items generalizing acc with
  | nil => simp
  | cons it rest ih =>
    rw [List.foldl_cons, ih, List.filter_cons]
    by_cases h : isActionMinutes it = true
    · have hp : toLowerS it.product = "actions" ∧ toLowerS it.unitType = "minutes" := by
        simpa [isActionMinutes] using h
      simp [h, parseStep_fst, hp]
      ring
    · have hp : ¬ (toLowerS it.product = "actions" ∧ toLowerS it.unitType = "minutes") := by
        simpa [isActionMinutes] using h
      simp [h, parseStep_fst, hp]

lemma parseUsageResponse_some (items : List UsageItem) (ty nm : String) :
    parseUsageResponse (some ⟨items⟩) ty nm
      = items.foldl parseStep (⟨ty, nm, 0, 0, 0, []⟩, ⟨ty, nm, 0, 0, 0⟩, ⟨ty, nm, 0, 0, 0⟩) := rfl

/-- Claim C5, counterexample: the claim puts a record in the actions
bucket only if its unit type equals `minutes`; the code lowercases the
unit type before comparing, so an item with unit type `MINUTES` is
accumulated into the bucket all the same. -/
theorem claim_C5_counterexample :
    cexUnitTypeItem.unitType ≠ "minutes" ∧
    (parseUsageResponse (some ⟨[cexUnitTypeItem]⟩) "org" "o").1.totalMinutesUsed = 10 :=
  ⟨by decide, by with_unfolding_all rfl⟩

/-- Claim C5 (amended: the unit-type comparison, like the product
comparison, is case-insensitive): the legacy normalizer accumulates
into the actions bucket exactly the records whose lowercased product is
`actions` and whose lowercased unit type is `minutes`; quantity goes to
the minutes total, net amount to the paid total, discount amount to the
included total; the per-OS breakdown adds the truncated quantity under
the OS derived from the SKU by `extractOSFromSKU`, and creates no entry
for an unclassified SKU; the specification's concrete single-item batch
yields TotalMinutesUsed 10, TotalPaidMinutesUsed 8, IncludedMinutes 2
and breakdown UBUNTU 10. -/
theorem claim_C5 (ty nm : String) (items : List UsageItem) :
    ((parseUsageResponse (some ⟨items⟩) ty nm).1.totalMinutesUsed
        = ((items.filter isActionMinutes).map (fun it => it.quantity)).sum) ∧
    ((parseUsageResponse (some ⟨items⟩) ty nm).1.totalPaidMinutesUsed
        = ((items.filter isActionMinutes).map (fun it => it.netAmount)).sum) ∧
    ((parseUsageResponse (some ⟨items⟩) ty nm).1.includedMinutes
        = ((items.filter isActionMinutes).map (fun it => it.discountAmount)).sum) ∧
    (∀ os : String, os ≠ "" →
      lookupB (parseUsageResponse (some ⟨items⟩) ty nm).1.minutesUsedBreakdown os
        = ((items.filter (fun it => isActionMinutes it && (extractOSFromSKU it.sku == os))).map
            (fun it => truncRat it.quantity)).sum) ∧
    (((parseUsageResponse (some ⟨items⟩) ty nm).1.minutesUsedBreakdown.map Prod.fst).all
        (fun k => k != "") = true) ∧
    ((parseUsageResponse (some ⟨[exampleActionItem]⟩) "org" "octo").1
        = ⟨"org", "octo", 10, 8, 2, [("UBUNTU", 10)]⟩) := by
  refine ⟨?_, ?_, ?_, ?_, ?_, by with_unfolding_all rfl⟩
  · rw [parseUsageResponse_some, foldl_action_total]
    simp
  · rw [parseUsageResponse_some, foldl_action_paid]
    simp
  · rw [parseUsageResponse_some, foldl_action_included]
    simp
  · intro os hos
    rw [parseUsageResponse_some, foldl_breakdown_lookup _ _ _ hos]
    simp [lookupB]
  · rw [parseUsageResponse_some, List.all_eq_true]
    intro k hk
    rw [List.mem_map] at hk
    obtain ⟨kv, hkv, rfl⟩ := hk
    exact bne_iff_ne.mpr (foldl_breakdown_keys items _ (by simp) kv hkv)

/-- Witness for claim C5, instantiated at the specification's concrete
batch with the operating-system key UBUNTU. -/
theorem claim_C5_witness :
    lookupB (parseUsageResponse (some ⟨[exampleActionItem]⟩) "org" "octo").1.minutesUsedBreakdown
        "UBUNTU"
      = (([exampleActionItem].filter
            (fun it => isActionMinutes it && (extractOSFromSKU it.sku == "UBUNTU"))).map
          (fun it => truncRat it.quantity)).sum :=
  (claim_C5 "org" "octo" [exampleActionItem]).2.2.2.1 "UBUNTU" (by decide)

/-- Claim C6: packages records with byte unit types have their quantity
divided by 1024·1024·1024 before accumulation, and the concrete
1073741824-byte item adds exactly 1 to the bandwidth total. -/
theorem claim_C6 (ty nm : String) (items : List UsageItem) :
    ((parseUsageResponse (some ⟨items⟩) ty nm).2.1.totalGigabytesBandwidthUsed
        = ((items.filter isPackageBW).map packageQty).sum) ∧
    (∀ it : UsageItem, it.unitType = "bytes" →
        packageQty it = it.quantity / (1024 * 1024 * 1024)) ∧
    ((parseUsageResponse (some ⟨items ++ [bytesPackageItem]⟩) ty nm).2.1.totalGigabytesBandwidthUsed
        = (parseUsageResponse (some ⟨items⟩) ty nm).2.1.totalGigabytesBandwidthUsed + 1) := by
  have hlow : toLowerS "bytes" = "bytes" := by decide
  refine ⟨?_, ?_, ?_⟩
  · rw [parseUsageResponse_some, foldl_package_total]
    simp
  · intro it h
    simp [packageQty, h, hlow]
  · have hb : isPackageBW bytesPackageItem = true := by decide
    have hq : packageQty bytesPackageItem = 1 := by with_unfolding_all rfl
    rw [parseUsageResponse_some, parseUsageResponse_some, foldl_package_total,
      foldl_package_total]
    simp [List.filter_append, hb, hq]

/-- Witness for claim C6: the byte-unit hypothesis discharged at the
concrete one-gigabyte item. -/
theorem claim_C6_witness :
    packageQty bytesPackageItem = bytesPackageItem.quantity / (1024 * 1024 * 1024) :=
  (claim_C6 "org" "o" []).2.1 bytesPackageItem (by decide)

/-- Claim C10: each classified actions record contributes its quantity
truncated toward zero to the per-OS breakdown while the untruncated
quantity goes to the minutes total, so a batch whose SKUs all classify
but with a fractional quantity has a breakdown sum strictly below the
total. -/
theorem claim_C10 :
    (∀ (ty nm : String) (items : List UsageItem),
      breakdownSum (parseUsageResponse (some ⟨items⟩) ty nm).1.minutesUsedBreakdown
        = ((items.filter (fun it => isActionMinutes it && isClassified it)).map
            (fun it => truncRat it.quantity)).sum ∧
      (parseUsageResponse (some ⟨items⟩) ty nm).1.totalMinutesUsed
        = ((items.filter isActionMinutes).map (fun it => it.quantity)).sum) ∧
    ([fracActionItem].all isClassified = true) ∧
    (((breakdownSum
          (parseUsageResponse (some ⟨[fracActionItem]⟩) "org" "o").1.minutesUsedBreakdown : ℤ) : ℚ)
        < (parseUsageResponse (some ⟨[fracActionItem]⟩) "org" "o").1.totalMinutesUsed) := by
  refine ⟨?_, by decide, ?_⟩
  · intro ty nm items
    constructor
    · rw [parseUsageResponse_some, foldl_breakdown_sum]
      simp [breakdownSum]
    · rw [parseUsageResponse_some, foldl_action_total]
      simp
  · have h1 : breakdownSum
        (parseUsageResponse (some ⟨[fracActionItem]⟩) "org" "o").1.minutesUsedBreakdown = 10 := by
      with_unfolding_all rfl
    have h2 : (parseUsageResponse (some ⟨[fracActionItem]⟩) "org" "o").1.totalMinutesUsed
        = 21 / 2 := by
      with_unfolding_all rfl
    rw [h1, h2]
    norm_num

lemma dedup_filter_key (items : List UsageItem) (seen : List String) (k : String) :
    (BillingCollector.dedup items seen).filter (fun it => billingKey it == k)
      = if k ∈ seen then [] else (items.filter (fun it => billingKey it == k)).take 1 := by
  induction items generalizing seen with
  | nil => simp [BillingCollector.dedup]
  | cons it rest ih =>
    simp only [BillingCollector.dedup]
    by_cases hseen : billingKey it ∈ seen
    · rw [if_pos hseen]
      by_cases hkeq : billingKey it = k
      · subst hkeq
        simp [ih, hseen]
      · simp [ih, List.filter_cons, hkeq]
    · rw [if_neg hseen]
      by_cases hkeq : billingKey it = k
      · subst hkeq
        simp [List.filter_cons, ih, hseen]
      · simp [List.filter_cons, ih, hseen, hkeq, Ne.symm hkeq]

lemma billingKey_date_inj (a b : UsageItem) (ht : a.type = b.type) (hn : a.name = b.name)
    (hp : a.product = b.product) (hs : a.sku = b.sku) (hk : billingKey a = billingKey b) :
    a.date = b.date := by
  unfold billingKey at hk
  rw [ht, hn, hp, hs] at hk
  have h2 := congrArg String.data hk
  simp only [String.data_append] at h2
  exact String.ext (List.append_cancel_left h2)

lemma dedup_key_covered (items : List UsageItem) (a : UsageItem) (ha : a ∈ items) :
    ∃ a' ∈ BillingCollector.dedup items [], billingKey a' = billingKey a := by
  have h1 := dedup_filter_key items [] (billingKey a)
  rw [if_neg (List.not_mem_nil _)] at h1
  cases hfil : items.filter (fun it => billingKey it == billingKey a) with
  | nil =>
      have hmem : a ∈ items.filter (fun it => billingKey it == billingKey a) :=
        List.mem_filter.mpr ⟨ha, by simp⟩
      rw [hfil] at hmem
      exact absurd hmem (List.not_mem_nil a)
  | cons x xs =>
      rw [hfil] at h1
      have hx : x ∈ (BillingCollector.dedup items []).filter
          (fun it => billingKey it == billingKey a) := by
        rw [h1]
        simp
      rcases List.mem_filter.mp hx with ⟨hx1, hx2⟩
      exact ⟨x, hx1, by simpa using hx2⟩

/-- Claim C1, counterexample: two items with distinct composite field
tuples (differing in `type` and `name`) alias to the same dash-joined
key string, so the second item — the first one carrying its composite
key — is dropped and emits no sample set. -/
theorem claim_C1_counterexample :
    billingTupleKey cexAliasItem1 ≠ billingTupleKey cexAliasItem2 ∧
    BillingCollector.dedup [cexAliasItem1, cexAliasItem2] [] = [cexAliasItem1] := by
  constructor
  · decide
  · with_unfolding_all rfl

/-- Claim C1 (amended: the dedup key is the dash-joined string
`type-name-product-sku-date`, so distinct field tuples whose joined
strings coincide share one key): within one Collect invocation the
first item carrying each key string is emitted unchanged (one sample
set per surviving item) and every later item with the same key string
is dropped without merging numeric fields; two items agreeing on type,
name, product and SKU but differing in date always get distinct keys
and therefore each emits its own sample set. -/
theorem claim_C1 (items : List UsageItem) (k : String) :
    (BillingCollector.Collect items
        = ((BillingCollector.dedup items []).map billingSampleSet).flatten) ∧
    ((BillingCollector.dedup items []).filter (fun it => billingKey it == k)
        = (items.filter (fun it => billingKey it == k)).take 1) ∧
    (∀ a ∈ items, ∀ b ∈ items,
      a.type = b.type → a.name = b.name → a.product = b.product → a.sku = b.sku →
      a.date ≠ b.date →
      billingKey a ≠ billingKey b ∧
      (∃ a' ∈ BillingCollector.dedup items [], billingKey a' = billingKey a) ∧
      (∃ b' ∈ BillingCollector.dedup items [], billingKey b' = billingKey b)) := by
  refine ⟨rfl, ?_, ?_⟩
  · simpa using dedup_filter_key items [] k
  · intro a ha b hb ht hn hp hs hd
    exact ⟨fun h => hd (billingKey_date_inj a b ht hn hp hs h),
      dedup_key_covered items a ha, dedup_key_covered items b hb⟩

/-- Witness for claim C1: two concrete items differing only in date
both keep their own sample set. -/
theorem claim_C1_witness :
    billingKey dateItemA ≠ billingKey dateItemB ∧
    (∃ a' ∈ BillingCollector.dedup [dateItemA, dateItemB] [],
        billingKey a' = billingKey dateItemA) ∧
    (∃ b' ∈ BillingCollector.dedup [dateItemA, dateItemB] [],
        billingKey b' = billingKey dateItemB) :=
  (claim_C1 [dateItemA, dateItemB] "").2.2 dateItemA (by simp) dateItemB (by simp)
    rfl rfl rfl rfl (by decide)

lemma pagedRepoRunners_ok (pages : List (List Runner)) (acc : List Runner) :
    RunnerCollector.pagedRepoRunners (mkTrace pages) acc = Except.ok (acc ++ pages.flatten) := by
  induction pages generalizing acc with
  | nil => simp [mkTrace, RunnerCollector.pagedRepoRunners]
  | cons p rest ih =>
    cases rest with
    | nil => simp [mkTrace, RunnerCollector.pagedRepoRunners]
    | cons q rs =>
      rw [show mkTrace (p :: q :: rs) = PageResult.ok p true :: mkTrace (q :: rs) from rfl]
      rw [show RunnerCollector.pagedRepoRunners (PageResult.ok p true :: mkTrace (q :: rs)) acc
          = RunnerCollector.pagedRepoRunners (mkTrace (q :: rs)) (acc ++ p) from by
        simp [RunnerCollector.pagedRepoRunners]]
      rw [ih]
      simp

lemma pagedRepoRunners_err (pre : List (List Runner)) (e : String) (rest : List PageResult)
    (acc : List Runner) :
    RunnerCollector.pagedRepoRunners
        (pre.map (fun p => PageResult.ok p true) ++ PageResult.fail e :: rest) acc
      = Except.error e := by
  induction pre generalizing acc with
  | nil => simp [RunnerCollector.pagedRepoRunners]
  | cons p ps ih =>
    rw [List.map_cons, List.cons_append]
    rw [show RunnerCollector.pagedRepoRunners
        (PageResult.ok p true :: (ps.map (fun p => PageResult.ok p true)
          ++ PageResult.fail e :: rest)) acc
        = RunnerCollector.pagedRepoRunners
            (ps.map (fun p => PageResult.ok p true) ++ PageResult.fail e :: rest) (acc ++ p) from by
      simp [RunnerCollector.pagedRepoRunners]]
    exact ih (acc ++ p)

/-- Claim C3: the paginated fetcher returns the concatenation of all
pages' records in page order, looping until the response carries no
next-page signal; if a page errors, it returns that error and no
records from earlier pages. -/
theorem claim_C3 :
    (∀ pages : List (List Runner),
      RunnerCollector.pagedRepoRunners (mkTrace pages) [] = Except.ok pages.flatten) ∧
    (∀ (pre : List (List Runner)) (e : String) (rest : List PageResult),
      RunnerCollector.pagedRepoRunners
          (pre.map (fun p => PageResult.ok p true) ++ PageResult.fail e :: rest) []
        = Except.error e) :=
  ⟨fun pages => by simpa using pagedRepoRunners_ok pages [],
   fun pre e rest => pagedRepoRunners_err pre e rest []⟩

lemma globMatch_no_wildcard : ∀ (p : List Char), (∀ c ∈ p, c ≠ '*' ∧ c ≠ '?') →
    ∀ (s : List Char), (globMatch p s = true ↔ p = s)
  | [], _, s => by cases s <;> simp [globMatch]
  | a :: ps, hw, s => by
    have ha := hw a (by simp)
    cases s with
    | nil => simp [globMatch, ha.1]
    | cons c s2 =>
      have ih := globMatch_no_wildcard ps (fun x hx => hw x (by simp [hx])) s2
      simp [globMatch, ha.1, ha.2, ih]

lemma globMatch_star (ps : List Char) (s : List Char) :
    globMatch ('*' :: ps) s = true ↔ ∃ t : List Char, t <:+ s ∧ globMatch ps t = true := by
  induction s with
  | nil =>
    rw [show globMatch ('*' :: ps) [] = globMatch ps [] from by simp [globMatch]]
    constructor
    · intro h
      exact ⟨[], List.suffix_refl [], h⟩
    · rintro ⟨t, ht, h2⟩
      rwa [List.suffix_nil.mp ht] at h2
  | cons c s2 ih =>
    rw [show globMatch ('*' :: ps) (c :: s2)
        = (globMatch ps (c :: s2) || globMatch ('*' :: ps) s2) from by simp [globMatch]]
    simp only [Bool.or_eq_true, ih]
    constructor
    · rintro (h | ⟨t, ht, h2⟩)
      · exact ⟨c :: s2, List.suffix_refl _, h⟩
      · exact ⟨t, ht.trans (List.suffix_cons c s2), h2⟩
    · rintro ⟨t, ht, h2⟩
      rcases List.suffix_cons_iff.mp ht with h | h
      · subst h
        exact Or.inl h2
      · exact Or.inr ⟨t, h, h2⟩

/-- Claim C2: the entity resolver retains exactly the repositories
whose fully-qualified name matches the configured pattern under the
anchored, case-sensitive glob semantics with star and question-mark
wildcards; a pattern containing no wildcard matches only the identical
name. -/
theorem claim_C2 (pattern : String) (repos : List Repo) :
    (∀ r : Repo, r ∈ retainedRepos pattern repos
        ↔ r ∈ repos ∧ globGlob pattern r.fullName = true) ∧
    ((∀ c ∈ pattern.data, c ≠ '*' ∧ c ≠ '?') →
      ∀ r ∈ repos, (globGlob pattern r.fullName = true ↔ r.fullName = pattern)) ∧
    (∀ (ps : List Char) (c : Char) (s : List Char),
      globMatch ('?' :: ps) (c :: s) = globMatch ps s) ∧
    (∀ (ps s : List Char),
      globMatch ('*' :: ps) s = true ↔ ∃ t : List Char, t <:+ s ∧ globMatch ps t = true) := by
  refine ⟨?_, ?_, ?_, fun ps s => globMatch_star ps s⟩
  · intro r
    simp [retainedRepos, List.mem_filter]
  · intro hw r _hr
    rw [show globGlob pattern r.fullName = globMatch pattern.data r.fullName.data from rfl,
      globMatch_no_wildcard pattern.data hw r.fullName.data]
    exact ⟨fun h => (String.ext h).symm, fun h => congrArg String.data h.symm⟩
  · intro ps c s
    simp [globMatch]

/-- Witness for claim C2: the wildcard-free pattern `a/b` matches
exactly the repository named `a/b`. -/
theorem claim_C2_witness :
    globGlob "a/b" repoAB.fullName = true ↔ repoAB.fullName = "a/b" :=
  (claim_C2 "a/b" [repoAB]).2.1 (by decide) repoAB (by simp)

lemma collectSection_isSome (ownerLabel d1 d2 : String) (records : List Runner) :
    (collectSection ownerLabel d1 d2 records).isSome = true ↔
      ∀ r ∈ records, r.busy.isSome = true := by
  induction records with
  | nil => simp [collectSection]
  | cons r rest ih =>
    cases hb : r.busy with
    | none =>
      have hcons : collectSection ownerLabel d1 d2 (r :: rest) = none := by
        simp [collectSection, runnerSamplePair, hb]
      rw [hcons]
      simp [hb]
    | some b =>
      cases hc : collectSection ownerLabel d1 d2 rest with
      | none =>
        have hrest : ¬ (∀ r2 ∈ rest, r2.busy.isSome = true) := by
          intro hall
          have h2 := ih.mpr hall
          rw [hc] at h2
          simp at h2
        have hcons : collectSection ownerLabel d1 d2 (r :: rest) = none := by
          simp [collectSection, runnerSamplePair, hb, hc]
        rw [hcons]
        simp [hb]
        by_contra hno
        push_neg at hno
        exact hrest (fun r2 hr2 => by
          cases hb2 : r2.busy with
          | none => exact absurd hb2 (hno r2 hr2)
          | some v => simp [hb2])
      | some tail =>
        have hcons : collectSection ownerLabel d1 d2 (r :: rest)
            = some ([⟨d1, runnerLabels ownerLabel r, onlineVal r⟩,
                     ⟨d2, runnerLabels ownerLabel r, boolToFloat64 b⟩] ++ tail) := by
          simp [collectSection, runnerSamplePair, hb, hc]
        rw [hcons]
        simp [hb]
        exact ih.mp (by rw [hc]; simp)

lemma Collect_isSome (a b c : List Runner) :
    (RunnerCollector.Collect a b c).isSome = true ↔
      ∀ r ∈ a ++ b ++ c, r.busy.isSome = true := by
  constructor
  · intro h r hr
    rcases hA : collectSection "TODO: repo" "github_runner_repo_online"
        "github_runner_repo_busy" a with _ | sa
    · unfold RunnerCollector.Collect at h
      rw [hA] at h
      simp at h
    rcases hB : collectSection "TODO: enterprise" "github_runner_enterprise_online"
        "github_runner_enterprise_busy" b with _ | sb
    · unfold RunnerCollector.Collect at h
      rw [hA, hB] at h
      simp at h
    rcases hC : collectSection "TODO: org" "github_runner_org_online"
        "github_runner_org_busy" c with _ | sc
    · unfold RunnerCollector.Collect at h
      rw [hA, hB, hC] at h
      simp at h
    have ha2 := (collectSection_isSome "TODO: repo" "github_runner_repo_online"
      "github_runner_repo_busy" a).mp (by rw [hA]; simp)
    have hb2 := (collectSection_isSome "TODO: enterprise" "github_runner_enterprise_online"
      "github_runner_enterprise_busy" b).mp (by rw [hB]; simp)
    have hc2 := (collectSection_isSome "TODO: org" "github_runner_org_online"
      "github_runner_org_busy" c).mp (by rw [hC]; simp)
    rcases List.mem_append.mp hr with h1 | h1
    · rcases List.mem_append.mp h1 with h2 | h2
      · exact ha2 r h2
      · exact hb2 r h2
    · exact hc2 r h1
  · intro hall
    have hA := (collectSection_isSome "TODO: repo" "github_runner_repo_online"
      "github_runner_repo_busy" a).mpr (fun r hr => hall r (by simp [hr]))
    have hB := (collectSection_isSome "TODO: enterprise" "github_runner_enterprise_online"
      "github_runner_enterprise_busy" b).mpr (fun r hr => hall r (by simp [hr]))
    have hC := (collectSection_isSome "TODO: org" "github_runner_org_online"
      "github_runner_org_busy" c).mpr (fun r hr => hall r (by simp [hr]))
    rcases Option.isSome_iff_exists.mp hA with ⟨sa, hsa⟩
    rcases Option.isSome_iff_exists.mp hB with ⟨sb, hsb⟩
    rcases Option.isSome_iff_exists.mp hC with ⟨sc, hsc⟩
    unfold RunnerCollector.Collect
    rw [hsa, hsb, hsc]
    simp

lemma collectSection_total (ownerLabel d1 d2 : String) (records : List Runner)
    (h : ∀ r ∈ records, r.busy.isSome = true) :
    collectSection ownerLabel d1 d2 records
      = some ((records.map (fun r =>
          [⟨d1, runnerLabels ownerLabel r, onlineVal r⟩,
           ⟨d2, runnerLabels ownerLabel r, boolToFloat64 (r.busy.getD false)⟩])).flatten) := by
  induction records with
  | nil => simp [collectSection]
  | cons r rest ih =>
    have hr := h r (by simp)
    cases hb : r.busy with
    | none =>
      rw [hb] at hr
      simp at hr
    | some b =>
      have htail := ih (fun x hx => h x (by simp [hx]))
      simp [collectSection, runnerSamplePair, hb, htail]

/-- Claim C9: a fetched record with an absent busy flag makes Collect
dereference a nil pointer — modelled as the `none` outcome — instead of
emitting a default or skipping the record, and Collect is total exactly
when every record of every section carries a busy flag. -/
theorem claim_C9 (repoRecords entRecords orgRecords : List Runner) :
    (RunnerCollector.Collect [nilBusyRunner] [] [] = none) ∧
    ((RunnerCollector.Collect repoRecords entRecords orgRecords).isSome = true ↔
      ∀ r ∈ repoRecords ++ entRecords ++ orgRecords, r.busy.isSome = true) :=
  ⟨by with_unfolding_all rfl, Collect_isSome repoRecords entRecords orgRecords⟩

/-- Claim C7, counterexample: with two configured patterns matching the
same repository, the runner collector emits the repo-online sample
twice for one and the same (scope, id) — no deduplication happens. -/
theorem claim_C7_counterexample :
    dupRecords = [dupRunner, dupRunner] ∧
    ((RunnerCollector.Collect dupRecords [] []).getD []).countP
        (fun s => s.desc == "github_runner_repo_online"
          && s.labels == runnerLabels "TODO: repo" dupRunner) = 2 := by
  constructor
  · with_unfolding_all rfl
  · with_unfolding_all rfl

/-- Claim C7 (amended): the runner collector performs no deduplication
at all — every fetched record yields its full sample pair in order, so
later records with an identical (scope, id) are emitted again rather
than dropped. -/
theorem claim_C7 (records : List Runner) (h : ∀ r ∈ records, r.busy.isSome = true) :
    RunnerCollector.Collect records [] []
      = some ((records.map (fun r =>
          [⟨"github_runner_repo_online", runnerLabels "TODO: repo" r, onlineVal r⟩,
           ⟨"github_runner_repo_busy", runnerLabels "TODO: repo" r,
             boolToFloat64 (r.busy.getD false)⟩])).flatten) := by
  have hsec := collectSection_total "TODO: repo" "github_runner_repo_online"
    "github_runner_repo_busy" records h
  unfold RunnerCollector.Collect
  rw [hsec]
  simp [collectSection]

/-- Witness for claim C7: the duplicate two-record list is emitted in
full, one sample pair per record. -/
theorem claim_C7_witness :
    RunnerCollector.Collect dupRecords [] []
      = some ((dupRecords.map (fun r =>
          [⟨"github_runner_repo_online", runnerLabels "TODO: repo" r, onlineVal r⟩,
           ⟨"github_runner_repo_busy", runnerLabels "TODO: repo" r,
             boolToFloat64 (r.busy.getD false)⟩])).flatten) :=
  claim_C7 dupRecords (by with_unfolding_all decide)

lemma getBillingUsage_fold (api : String → String → Except String (List UsageItem))
    (l : List (String × String)) (acc : List UsageItem × List String) :
    l.foldl (fun acc p =>
        (acc.1 ++ (fetchBillingUsageForEntity api p.1 p.2).1,
         acc.2 ++ (fetchBillingUsageForEntity api p.1 p.2).2)) acc
      = (acc.1 ++ (l.map (fun p => (fetchBillingUsageForEntity api p.1 p.2).1)).flatten,
         acc.2 ++ (l.map (fun p => (fetchBillingUsageForEntity api p.1 p.2).2)).flatten) := by
  induction l generalizing acc with
  | nil => simp
  | cons p ps ih =>
    rw [List.foldl_cons, ih]
    simp

lemma fetch_fail_flatten (api : String → String → Except String (List UsageItem))
    (l : List (String × String)) :
    (l.map (fun p => (fetchBillingUsageForEntity api p.1 p.2).2)).flatten
      = List.replicate (l.countP (fun p => isErr (api p.1 p.2))) "billing" := by
  induction l with
  | nil => simp
  | cons p ps ih =>
    rw [List.map_cons, List.flatten_cons, ih, List.countP_cons]
    cases hapi : api p.1 p.2 with
    | error e => simp [fetchBillingUsageForEntity, hapi, isErr, List.replicate_succ]
    | ok v => simp [fetchBillingUsageForEntity, hapi, isErr]

lemma legacy_fold {β : Type} (api : String → String → Except String UsageResponse)
    (f : String → String → UsageResponse → β) (l : List (String × String))
    (acc : List β × List String) :
    l.foldl (fun acc p =>
        match api p.1 p.2 with
        | Except.error _ => (acc.1, acc.2 ++ ["action"])
        | Except.ok resp => (acc.1 ++ [f p.1 p.2 resp], acc.2)) acc
      = (acc.1 ++ l.filterMap (fun p =>
            match api p.1 p.2 with
            | Except.error _ => none
            | Except.ok resp => some (f p.1 p.2 resp)),
         acc.2 ++ List.replicate (l.countP (fun p => isErr (api p.1 p.2))) "action") := by
  induction l generalizing acc with
  | nil => simp
  | cons p ps ih =>
    rw [List.foldl_cons]
    cases hapi : api p.1 p.2 with
    | error e =>
      simp only [hapi]
      rw [ih]
      simp [List.filterMap_cons, List.countP_cons, hapi, isErr, List.replicate_succ]
    | ok resp =>
      simp only [hapi]
      rw [ih]
      simp [List.filterMap_cons, List.countP_cons, hapi, isErr]

/-- Claim C4, counterexample: one failing entity in the legacy billing
collector's package sub-fetch leaves the collector family's failure
label `billing` — the label the constructor pre-registers — with zero
increments; the increment goes to the literal label `action` instead. -/
theorem claim_C4_counterexample :
    isErr (failApi "enterprise" "acme") = true ∧
    (getPackageBilling failApi ["acme"] []).2.count "billing" = 0 ∧
    (getPackageBilling failApi ["acme"] []).2.count "action" = 1 := by
  refine ⟨rfl, ?_, ?_⟩
  · with_unfolding_all rfl
  · with_unfolding_all rfl

/-- Claim C4 (amended: the per-entity failure increment of the legacy
billing sub-fetches is made under the literal label `action` rather
than the collector family's label `billing`; the enhanced collector
increments `billing`): a failing per-entity fetch never propagates —
the fetchers are total and return the items or buckets of every
succeeding entity in order — and each failing entity contributes
exactly one failure increment. -/
theorem claim_C4 (api : String → String → Except String (List UsageItem))
    (lapi : String → String → Except String UsageResponse)
    (enterprises orgs : List String) :
    ((getBillingUsage api enterprises orgs).1
        = ((entityPairs enterprises orgs).map
            (fun p => (fetchBillingUsageForEntity api p.1 p.2).1)).flatten) ∧
    ((getBillingUsage api enterprises orgs).2
        = List.replicate
            ((entityPairs enterprises orgs).countP (fun p => isErr (api p.1 p.2))) "billing") ∧
    ((getPackageBilling lapi enterprises orgs).1
        = (entityPairs enterprises orgs).filterMap (fun p =>
            match lapi p.1 p.2 with
            | Except.error _ => none
            | Except.ok resp => some (parseUsageResponse (some resp) p.1 p.2).2.1)) ∧
    ((getPackageBilling lapi enterprises orgs).2
        = List.replicate
            ((entityPairs enterprises orgs).countP (fun p => isErr (lapi p.1 p.2))) "action") := by
  have h1 := getBillingUsage_fold api (entityPairs enterprises orgs) ([], [])
  have h2 := legacy_fold lapi (fun ty nm resp => (parseUsageResponse (some resp) ty nm).2.1)
    (entityPairs enterprises orgs) ([], [])
  refine ⟨?_, ?_, ?_, ?_⟩
  · rw [show (getBillingUsage api enterprises orgs)
        = (entityPairs enterprises orgs).foldl (fun acc p =>
            (acc.1 ++ (fetchBillingUsageForEntity api p.1 p.2).1,
             acc.2 ++ (fetchBillingUsageForEntity api p.1 p.2).2)) ([], []) from rfl, h1]
    simp
  · rw [show (getBillingUsage api enterprises orgs)
        = (entityPairs enterprises orgs).foldl (fun acc p =>
            (acc.1 ++ (fetchBillingUsageForEntity api p.1 p.2).1,
             acc.2 ++ (fetchBillingUsageForEntity api p.1 p.2).2)) ([], []) from rfl, h1]
    simp [fetch_fail_flatten]
  · rw [show (getPackageBilling lapi enterprises orgs)
        = (entityPairs enterprises orgs).foldl (fun acc p =>
            match lapi p.1 p.2 with
            | Except.error _ => (acc.1, acc.2 ++ ["action"])
            | Except.ok resp =>
                (acc.1 ++ [(parseUsageResponse (some resp) p.1 p.2).2.1], acc.2)) ([], [])
      from rfl, h2]
    simp
  · rw [show (getPackageBilling lapi enterprises orgs)
        = (entityPairs enterprises orgs).foldl (fun acc p =>
            match lapi p.1 p.2 with
            | Except.error _ => (acc.1, acc.2 ++ ["action"])
            | Except.ok resp =>
                (acc.1 ++ [(parseUsageResponse (some resp) p.1 p.2).2.1], acc.2)) ([], [])
      from rfl, h2]
    simp

/-- Claim C8, counterexample: the legacy Collect observes the three
sub-fetch durations under the labels `action`, `action`, `action` —
the package and storage sub-fetches are not reported under their own
category labels. -/
theorem claim_C8_counterexample :
    (BillingCollector.CollectLegacy api0 ["acme"] []).2.1 = ["action", "action", "action"] ∧
    (BillingCollector.CollectLegacy api0 ["acme"] []).2.1 ≠ ["action", "package", "storage"] := by
  exact ⟨rfl, by decide⟩

/-- Claim C8 (amended: each of the three legacy sub-fetches — action,
package, storage — is wrapped in exactly one duration observation
regardless of outcome, but all three observations carry the single
literal label `action` instead of per-sub-fetch category labels). -/
theorem claim_C8 (api : String → String → Except String UsageResponse)
    (enterprises orgs : List String) :
    (BillingCollector.CollectLegacy api enterprises orgs).2.1
        = ["action", "action", "action"] ∧
    (∀ l ∈ (BillingCollector.CollectLegacy api enterprises orgs).2.1, l = "action") :=
  ⟨rfl, by
    intro l hl
    rw [show (BillingCollector.CollectLegacy api enterprises orgs).2.1
        = ["action", "action", "action"] from rfl] at hl
    simp at hl
    exact hl⟩

/-- Witness for claim C8 at a concrete oracle and entity list. -/
theorem claim_C8_witness :
    (BillingCollector.CollectLegacy api0 ["acme"] []).2.1 = ["action", "action", "action"] ∧
    ("action" : String) = "action" :=
  ⟨(claim_C8 api0 ["acme"] []).1,
   (claim_C8 api0 ["acme"] []).2 "action" (by rw [(claim_C8 api0 ["acme"] []).1]; simp)⟩
